import Mathlib

/-!
A shallow embedding of the `gonerator` code generator:
  * `src/gonerator/tmpl/methods.go` (interface-method extraction and
    type-expression stringification) in namespace `Tmpl`, and
  * `src/gonerator/gonerator/gonerator.go` (the build pipeline: header,
    template-data assembly, package parsing, formatting and output writing)
    in namespace `Gonerator`.

Go strings are modelled as Lean `String`; Go slices as Lean `List`; a Go
`nil` pointer to a struct is `Option.none`; a runtime panic (nil-pointer
dereference, out-of-range index) is `Option.none` as the result of the
function that would panic.  Functions from Go's standard library that the
code calls (`strings.Split`, `strings.Contains`, `strings.HasPrefix`,
`strings.HasSuffix`, `strings.ToLower`, `filepath.Join`) are re-implemented
below following their documented semantics, structurally recursive so that
they evaluate inside the kernel.  `strings.ToLower` is modelled as ASCII
case folding (no claim exercises non-ASCII input).
-/

/-! ## Models of the Go standard-library string functions used by the code -/

/-- Helper for `containsSub`: does `sub` occur as a contiguous sublist? -/
def containsSubAux (sub : List Char) : List Char → Bool
  | [] => sub.isEmpty
  | c :: rest => sub.isPrefixOf (c :: rest) || containsSubAux sub rest

/-- Model of Go `strings.Contains s sub`. -/
def containsSub (s sub : String) : Bool :=
  containsSubAux sub.data s.data

/-- Model of Go `strings.HasPrefix s pre`. -/
def hasPre (s pre : String) : Bool :=
  pre.data.isPrefixOf s.data

/-- Model of Go `strings.HasSuffix s suf`. -/
def hasSuf (s suf : String) : Bool :=
  suf.data.isSuffixOf s.data

/-- Model of Go `strings.ToLower` (ASCII case folding). -/
def strLower (s : String) : String :=
  ⟨s.data.map Char.toLower⟩

/-- Helper for `splitOnChar`: accumulates the current token (reversed). -/
def splitOnCharAux (sep : Char) : List Char → List Char → List String
  | [], cur => [⟨cur.reverse⟩]
  | c :: rest, cur =>
    if c = sep then ⟨cur.reverse⟩ :: splitOnCharAux sep rest []
    else splitOnCharAux sep rest (c :: cur)

/-- Split a string at every occurrence of a separator character, keeping
empty tokens; the empty string yields one empty token.  This is Go
`strings.Split s sep` for a one-character separator. -/
def splitOnChar (sep : Char) (s : String) : List String :=
  splitOnCharAux sep s.data []

/-- Model of the `strings.Split(extras, ",")` call in `buildTemplateData`. -/
def stringsSplitComma (s : String) : List String :=
  splitOnChar ',' s

/-- Join path components with `/` (helper for `clean`). -/
def joinComps : List String → String
  | [] => ""
  | [c] => c
  | c :: rest => c ++ "/" ++ joinComps rest

/-- One step of `filepath.Clean`'s component processing: skip empty and `.`
components, let `..` cancel a preceding non-`..` component (or be dropped at
the root of an absolute path, or kept on a relative path). -/
def cleanStep (abs : Bool) (stack : List String) (c : String) : List String :=
  if c = "" ∨ c = "." then stack
  else if c = ".." then
    match stack with
    | [] => if abs then [] else [".."]
    | t :: rest => if t = ".." then ".." :: t :: rest else rest
  else c :: stack

/-- Model of Go `path/filepath.Clean` on slash-separated paths. -/
def clean (p : String) : String :=
  let abs := hasPre p "/"
  let comps := ((splitOnChar '/' p).foldl (cleanStep abs) []).reverse
  if abs then "/" ++ joinComps comps
  else if comps.isEmpty then "." else joinComps comps

/-- Model of Go `path/filepath.Join a b`: join the non-empty arguments with a
slash and clean the result; all-empty arguments give the empty string. -/
def joinPath (a b : String) : String :=
  if a = "" ∧ b = "" then ""
  else if a = "" then clean b
  else if b = "" then clean a
  else clean (a ++ "/" ++ b)

namespace Tmpl

/-! ## Model of `src/gonerator/tmpl/methods.go` -/

/-- The fragment of `go/ast.Expr` that `getTypeString` distinguishes.
`other` stands for every remaining node kind (channel, function, struct
literal types, ...) together with the text `fmt`'s default rendering would
produce for it. -/
inductive Expr where
  | ident : String → Expr
  | arrayType : Expr → Expr
  | mapType : Expr → Expr → Expr
  | selectorExpr : Expr → String → Expr
  | starExpr : Expr → Expr
  | other : String → Expr
deriving DecidableEq

/-- Model of `fmt.Sprintf("%s", e)` on an `ast.Expr`: an `*ast.Ident`
implements `fmt.Stringer` and prints its name; every other node kind has no
`String` method and prints Go fmt's generic struct dump, whose exact text
depends on token positions not modelled here — the model keeps the
recursive `&\x7b...\x7d` shape.  No claim depends on the dump's exact
characters. -/
def fmtS : Expr → String
  | .ident n => n
  | .arrayType e => "&\x7b" ++ fmtS e ++ "\x7d"
  | .mapType k v => "&\x7b" ++ fmtS k ++ " " ++ fmtS v ++ "\x7d"
  | .selectorExpr x s => "&\x7b" ++ fmtS x ++ " " ++ s ++ "\x7d"
  | .starExpr x => "&\x7b" ++ fmtS x ++ "\x7d"
  | .other d => d

/-- Model of `getTypeString` (methods.go:89-108): a `switch` on the node
kind with recursive cases for array and pointer types, direct `%s`
substitution for map keys/values and selector bases, and `%s` of the whole
node as the `default` case. -/
def getTypeString : Expr → String
  | .arrayType elt => "[]" ++ getTypeString elt
  | .mapType k v => "map[" ++ fmtS k ++ "]" ++ fmtS v
  | .selectorExpr x sel => fmtS x ++ "." ++ sel
  | .starExpr x => "*" ++ getTypeString x
  | e => fmtS e

/-- Which `Expr` shapes have a dedicated `case` in `getTypeString`'s
`switch` (everything else falls to the `default` branch). -/
def handledShape : Expr → Bool
  | .arrayType _ => true
  | .mapType _ _ => true
  | .selectorExpr _ _ => true
  | .starExpr _ => true
  | _ => false

/-- `MethodField` (methods.go:9-12).  The Go field `Type` is rendered here
as `Type'` because `Type` is a Lean keyword. -/
structure MethodField where
  Names : List String
  Type' : String
deriving DecidableEq

/-- `Method` (methods.go:15-19). -/
structure Method where
  Name : String
  Params : List MethodField
  Results : List MethodField
deriving DecidableEq

/-- An `ast.Field` as it occurs in a parameter or result `ast.FieldList`:
zero or more names bound to one type expression. -/
structure MethodSlot where
  names : List String
  type : Expr
deriving DecidableEq

/-- The type expression of an `ast.Field` inside an `ast.InterfaceType`:
either an `*ast.FuncType` (a method; its `Params` and `Results` are
`*ast.FieldList` pointers which may be nil, modelled by `Option`), or any
other expression (an embedded interface name), which `GetMethods` skips. -/
inductive MemberType where
  | funcType : Option (List MethodSlot) → Option (List MethodSlot) → MemberType
  | nonFunc : Expr → MemberType
deriving DecidableEq

/-- An `ast.Field` in an interface's `Methods.List`. -/
structure InterfaceField where
  names : List String
  type : MemberType
deriving DecidableEq

/-- `Field` of the tmpl package.  Modelled from the spec: its declaring
file is not under `src/`; §3 describes a struct member's name, its
type-expression rendered as text, and optional tag text. -/
structure Field where
  Name : String
  Type' : String
  Tag : String
deriving DecidableEq

/-- The underlying type of an `ast.TypeSpec` as far as the extractor cares:
an interface type (its `Methods.List`), a struct type (its members; the
model stores them directly as `Field` records, see `GetFields`), or
anything else. -/
inductive TypeShape where
  | interfaceType : List InterfaceField → TypeShape
  | structType : List Field → TypeShape
  | otherShape : Expr → TypeShape
deriving DecidableEq

/-- An `ast.TypeSpec`: the declared name and its underlying type. -/
structure TypeSpec where
  name : String
  type : TypeShape
deriving DecidableEq

/-- An `ast.Spec` inside a `GenDecl`: a `TypeSpec` or anything else
(imports, constants, variables). -/
inductive Spec where
  | typeSpec : TypeSpec → Spec
  | otherSpec : Spec
deriving DecidableEq

/-- A top-level `ast.Decl`: a `GenDecl` with its specs, or anything else
(function declarations). -/
inductive Decl where
  | genDecl : List Spec → Decl
  | otherDecl : Decl
deriving DecidableEq

/-- An `ast.File`: its package name (`File.Name.Name`) and declarations. -/
structure AstFile where
  packageName : String
  decls : List Decl
deriving DecidableEq

/-- `extractFieldsFromAst` (methods.go:71-87): one `MethodField` per slot,
in order, the type rendered by `getTypeString` and the names copied. -/
def extractFieldsFromAst (items : List MethodSlot) : List MethodField :=
  items.map fun item => { Type' := getTypeString item.type, Names := item.names }

/-- `extractParamsAndResults` (methods.go:64-69).  The Go code reads
`fnDesl.Params.List` and `fnDesl.Results.List` unconditionally; a nil
`*ast.FieldList` (a method with no declared result list, whose parsed
`Results` pointer is nil) makes it panic, modelled by `none`. -/
def extractParamsAndResults :
    Option (List MethodSlot) → Option (List MethodSlot) →
    Option (List MethodField × List MethodField)
  | some ps, some rs => some (extractFieldsFromAst ps, extractFieldsFromAst rs)
  | _, _ => none

/-- The body of `GetMethods`' inner loop for one interface member
(methods.go:44-55): a non-`FuncType` member is skipped; a `FuncType`
member yields one `Method` named `field.Names[0].Name` — indexing an empty
name list, like the nil field-list dereference, is a panic (`none`). -/
def methodOfField (f : InterfaceField) : Option (List Method) :=
  match f.type with
  | .funcType ps rs =>
    match extractParamsAndResults ps rs with
    | none => none
    | some (params, results) =>
      match f.names with
      | [] => none
      | n :: _ => some [{ Name := n, Params := params, Results := results }]
  | .nonFunc _ => some []

/-- `GetMethods` (methods.go:27-62): walk every declaration, every
`TypeSpec` whose underlying type is an interface and whose name matches,
and append one `Method` per `FuncType` member in declared order.  `none`
models the runtime panics of `extractParamsAndResults` /
`field.Names[0]`. -/
def GetMethods (file : AstFile) (typeName : String) : Option (List Method) :=
  file.decls.foldl
    (fun acc decl =>
      match acc with
      | none => none
      | some out =>
        match decl with
        | .otherDecl => some out
        | .genDecl specs =>
          specs.foldl
            (fun acc2 spec =>
              match acc2 with
              | none => none
              | some out2 =>
                match spec with
                | .otherSpec => some out2
                | .typeSpec ts =>
                  match ts.type with
                  | .interfaceType members =>
                    if ts.name = typeName then
                      members.foldl
                        (fun acc3 f =>
                          match acc3, methodOfField f with
                          | some out3, some ms => some (out3 ++ ms)
                          | _, _ => none)
                        (some out2)
                    else some out2
                  | _ => some out2)
            (some out))
    (some [])

/-- `GetFields` of the tmpl package.  Modelled from the spec: its declaring
file is not under `src/`; §4.1: for each type declaration whose underlying
shape is a structure and whose name matches, emit one `Field` per member in
declared order, concatenated across all matching declarations.  The model
stores struct members directly as `Field` records. -/
def GetFields (file : AstFile) (typeName : String) : List Field :=
  file.decls.foldl
    (fun acc decl =>
      match decl with
      | .otherDecl => acc
      | .genDecl specs =>
        specs.foldl
          (fun acc2 spec =>
            match spec with
            | .otherSpec => acc2
            | .typeSpec ts =>
              match ts.type with
              | .structType fields =>
                if ts.name = typeName then acc2 ++ fields else acc2
              | _ => acc2)
          acc)
    []

/-- `TemplateData` of the tmpl package.  Modelled from the spec: its
declaring file is not under `src/`; the fields are the ones gonerator.go
reads and writes (§3 of the spec lists the same shape). -/
structure TemplateData where
  TypeName : String
  TemplateFile : String
  OutputFile : String
  PackageName : String
  Fields : List Field
  Extras : List String
  Methods : List Method
deriving DecidableEq

end Tmpl

namespace Gonerator

/-! ## Model of `src/gonerator/gonerator/gonerator.go` -/

/-- `isGo` (gonerator.go:203-205): `strings.Contains(filename, ".go")`. -/
def isGo (filename : String) : Bool :=
  containsSub filename ".go"

/-- `Package` of the gonerator package.  Its declaring file is not under
`src/`; the fields are the ones gonerator.go assigns and reads
(`name`, `dir`, `astFiles`).  The `files` list of `File` wrappers is
omitted: nothing under `src/` reads it. -/
structure Package where
  name : String
  dir : String
  astFiles : List Tmpl.AstFile
deriving DecidableEq

/-- The parse loop of `parsePackage` (gonerator.go:125-138) over the names
that survive the `.go`-suffix filter: `parser.ParseFile` is the `parse`
argument; the first parse error is fatal (`log.Fatalf`, modelled `none`). -/
def parseAll (parse : String → Option Tmpl.AstFile) :
    List String → Option (List Tmpl.AstFile)
  | [] => some []
  | n :: rest =>
    match parse n with
    | none => none
    | some f => (parseAll parse rest).map (f :: ·)

/-- `parsePackage` (gonerator.go:120-146): skip names not ending in `.go`,
parse the rest in order (any parse error is fatal), fail fatally when no Go
file was parsed, and otherwise record the directory, the parsed files, and
— as the package name — the package name of `astFiles[0]`. -/
def parsePackage (parse : String → Option Tmpl.AstFile) (directory : String)
    (names : List String) : Option Package :=
  let goFiles := names.filter fun n => hasSuf n ".go"
  match parseAll parse goFiles with
  | none => none
  | some [] => none
  | some (f :: rest) =>
    some { name := f.packageName, dir := directory, astFiles := f :: rest }

/-- `findTypeFields` (gonerator.go:69-80): for each parsed file, append the
extracted struct fields and interface methods for the requested type name;
a panic inside `Tmpl.GetMethods` propagates (`none`). -/
def findTypeFields (astFiles : List Tmpl.AstFile) (data : Tmpl.TemplateData) :
    Option Tmpl.TemplateData :=
  astFiles.foldl
    (fun acc file =>
      match acc with
      | none => none
      | some d =>
        let fields := Tmpl.GetFields file d.TypeName
        let d1 :=
          if fields.length > 0 then { d with Fields := d.Fields ++ fields } else d
        match Tmpl.GetMethods file d1.TypeName with
        | none => none
        | some methods =>
          some (if methods.length > 0
                then { d1 with Methods := d1.Methods ++ methods }
                else d1))
    (some data)

/-- `buildTemplateData` (gonerator.go:62-67): run `findTypeFields`, then set
`Extras` to the comma-split of the extras string and `PackageName` to the
parsed package's name. -/
def buildTemplateData (pkg : Package) (data : Tmpl.TemplateData)
    (extras : String) : Option Tmpl.TemplateData :=
  match findTypeFields pkg.astFiles data with
  | none => none
  | some d =>
    some { d with Extras := stringsSplitComma extras, PackageName := pkg.name }

/-- The exact header text `buildHeader` prints (gonerator.go:167-174) for a
given type name, template path and destination path. -/
def headerText (typeName templateFile outputFile : String) : String :=
  "// Code gonerated by \"github.com/myteksi/go/tools/gonerator\"\n" ++
  "// DO NOT EDIT\n" ++
  "// @generated \n" ++
  "//\n" ++
  "// Args:\n" ++
  "// TypeName: " ++ typeName ++ "\n" ++
  "// Template: " ++ templateFile ++ "\n" ++
  "// Destination: " ++ outputFile ++ "\n" ++
  "\n"

/-- `buildHeader` (gonerator.go:165-176): append the header to the buffer
exactly when `isGo` holds of the destination file name. -/
def buildHeader (data : Tmpl.TemplateData) (buf : String) : String :=
  if isGo data.OutputFile then
    buf ++ headerText data.TypeName data.TemplateFile data.OutputFile
  else buf

/-- The template-path resolution at the top of `Build`
(gonerator.go:41-46): an argument starting with `/` is used as given,
anything else is *concatenated* onto the directory (`dir + templateFile`,
no separator inserted). -/
def templatePath (dir templateFile : String) : String :=
  if !(hasPre templateFile "/") then dir ++ templateFile else templateFile

/-- `format` (gonerator.go:148-159).  `format.Source` of the Go standard
library is the `gofmt` argument (`none` = the rendered text is not valid Go
source).  On failure the function logs two warning lines and returns the
raw buffer together with the error; on success it returns the formatted
source and no error.  Result: (bytes, error present, warnings logged). -/
def format (gofmt : String → Option String) (buf : String) :
    String × Bool × Nat :=
  match gofmt buf with
  | some src => (src, false, 0)
  | none => (buf, true, 2)

/-- Outcome of `writeFile`: what was persisted (path and bytes), how many
warning lines were logged, whether `log.Fatalf` terminated the process, and
the error value `writeFile` returns to `Build`. -/
structure WriteResult where
  written : Option (String × String)
  warnings : Nat
  fatal : Bool
  errOut : Bool
deriving DecidableEq

/-- `writeFile` (gonerator.go:178-201): format the buffer when the
destination name satisfies `isGo` (keeping the format error as the return
value), lower-case the whole `filename` argument and join it onto `dir`,
create the destination directory (`mkdirOk` = whether `os.MkdirAll`
succeeds) and write the file (`writeOk` = whether `ioutil.WriteFile`
succeeds); either file-system failure is fatal. -/
def writeFile (gofmt : String → Option String) (mkdirOk writeOk : Bool)
    (dir filename : String) (buf : String) : WriteResult :=
  let (src, errOut, warns) :=
    if isGo filename then format gofmt buf else (buf, false, 0)
  let outputName := joinPath dir (strLower filename)
  if !mkdirOk then
    { written := none, warnings := warns, fatal := true, errOut := errOut }
  else if !writeOk then
    { written := none, warnings := warns, fatal := true, errOut := errOut }
  else
    { written := some (outputName, src), warnings := warns, fatal := false,
      errOut := errOut }

/-- How a run ends after the write stage. -/
inductive RunExit where
  | completed
  | exitedNeg1
  | fatalExit
deriving DecidableEq

/-- The tail of `Build` (gonerator.go:56-59): call `writeFile` on the
rendered buffer and `os.Exit(-1)` when it returns a non-nil error (the only
error `writeFile` returns is the formatting error; file-system errors are
`log.Fatalf` inside `writeFile` itself). -/
def buildRun (gofmt : String → Option String) (mkdirOk writeOk : Bool)
    (dir filename : String) (buf : String) : WriteResult × RunExit :=
  let w := writeFile gofmt mkdirOk writeOk dir filename buf
  if w.fatal then (w, .fatalExit)
  else if w.errOut then (w, .exitedNeg1)
  else (w, .completed)

end Gonerator

/-! ## Definitions following the spec's words, for refinement comparison -/

/-- Follows the spec's words (refinement comparison for the header rule):
"the destination is itself source code in the same language ... (a Go
source file)", i.e. its name ends in `.go`. -/
def specIsGoSourceFile (filename : String) : Bool :=
  hasSuf filename ".go"

/-- Follows the spec's words (refinement comparison for the output path):
lower-case *only* the file name component (the final path element) of the
destination file argument, leaving every directory component unchanged. -/
def specLowerLastComponent (f : String) : String :=
  let parts := splitOnChar '/' f
  joinComps (parts.dropLast ++ [strLower (parts.getLastD "")])

/-- A concrete parser for test runs: `a.go` and `b.go` parse to files
declaring the (different) packages `pkga` and `pkgb`; anything else fails
to parse. -/
def parse0 : String → Option Tmpl.AstFile := fun n =>
  if n = "a.go" then some ⟨"pkga", []⟩
  else if n = "b.go" then some ⟨"pkgb", []⟩
  else none

/-! ## Helper lemmas -/

theorem strData_append (s t : String) : (s ++ t).data = s.data ++ t.data := rfl

theorem strEq_of_data (s t : String) (h : s.data = t.data) : s = t := by
  cases s; cases t; cases h; rfl

theorem isPre_iff (sub : List Char) :
    ∀ l : List Char, sub.isPrefixOf l = true ↔ ∃ t, l = sub ++ t := by
  induction sub with
  | nil =>
    intro l
    simp [List.isPrefixOf]
  | cons a sub ih =>
    intro l
    cases l with
    | nil => simp [List.isPrefixOf]
    | cons b l' =>
      simp only [List.isPrefixOf, Bool.and_eq_true, beq_iff_eq, ih l',
        List.cons_append, List.cons.injEq]
      constructor
      · rintro ⟨rfl, t, rfl⟩
        exact ⟨t, rfl, rfl⟩
      · rintro ⟨t, rfl, rfl⟩
        exact ⟨rfl, t, rfl⟩

theorem containsSubAux_iff (sub : List Char) :
    ∀ l : List Char,
      containsSubAux sub l = true ↔ ∃ pre post, l = pre ++ (sub ++ post) := by
  intro l
  induction l with
  | nil =>
    simp only [containsSubAux, List.isEmpty_iff]
    constructor
    · rintro rfl
      exact ⟨[], [], rfl⟩
    · rintro ⟨pre, post, h⟩
      rcases List.append_eq_nil.mp h.symm with ⟨-, h2⟩
      exact (List.append_eq_nil.mp h2).1
  | cons c rest ih =>
    simp only [containsSubAux, Bool.or_eq_true, isPre_iff, ih]
    constructor
    · rintro (⟨t, ht⟩ | ⟨pre, post, hp⟩)
      · exact ⟨[], t, by simpa using ht⟩
      · exact ⟨c :: pre, post, by simp [hp]⟩
    · rintro ⟨pre, post, hp⟩
      cases pre with
      | nil => exact Or.inl ⟨post, by simpa using hp⟩
      | cons p pre' =>
        rw [List.cons_append] at hp
        injection hp with h1 h2
        exact Or.inr ⟨pre', post, h2⟩

theorem containsSub_iff (s sub : String) :
    containsSub s sub = true ↔
      ∃ pre post : List Char, s.data = pre ++ (sub.data ++ post) :=
  containsSubAux_iff sub.data s.data

theorem headerText_ne_empty (t f o : String) :
    Gonerator.headerText t f o ≠ "" := by
  intro h
  have hp : hasPre (Gonerator.headerText t f o) "//" = true := rfl
  rw [h] at hp
  exact absurd hp (by decide)

theorem writeFile_written_path :
    ∀ (gofmt : String → Option String) (dir filename buf : String),
      ∃ s : String,
        (Gonerator.writeFile gofmt true true dir filename buf).written =
          some (joinPath dir (strLower filename), s) := by
  intro gofmt dir filename buf
  cases hg : Gonerator.isGo filename with
  | true =>
    cases hf : gofmt buf with
    | some s => exact ⟨s, by simp [Gonerator.writeFile, Gonerator.format, hg, hf]⟩
    | none => exact ⟨buf, by simp [Gonerator.writeFile, Gonerator.format, hg, hf]⟩
  | false => exact ⟨buf, by simp [Gonerator.writeFile, hg]⟩

theorem buildTemplateData_extras_aux :
    ∀ (pkg : Gonerator.Package) (data : Tmpl.TemplateData) (extras : String)
      (d : Tmpl.TemplateData),
      Gonerator.buildTemplateData pkg data extras = some d →
      d.Extras = stringsSplitComma extras := by
  intro pkg data extras d h
  simp only [Gonerator.buildTemplateData] at h
  cases hf : Gonerator.findTypeFields pkg.astFiles data with
  | none => rw [hf] at h; cases h
  | some d0 =>
    rw [hf] at h
    injection h with h'
    rw [← h']

theorem buildTemplateData_packageName :
    ∀ (pkg : Gonerator.Package) (data : Tmpl.TemplateData) (extras : String)
      (d : Tmpl.TemplateData),
      Gonerator.buildTemplateData pkg data extras = some d →
      d.PackageName = pkg.name := by
  intro pkg data extras d h
  simp only [Gonerator.buildTemplateData] at h
  cases hf : Gonerator.findTypeFields pkg.astFiles data with
  | none => rw [hf] at h; cases h
  | some d0 =>
    rw [hf] at h
    injection h with h'
    rw [← h']

/-! ## Claim theorems -/

/-- C1: evaluation of the extractor at the failing input.  An interface
with a method that declares no result list (e.g. `type Closer interface
\x7b Close() \x7d`, whose parsed `*ast.FuncType` has an empty `Params`
field list and a nil `Results` pointer) makes `GetMethods` dereference the
nil `Results` in `extractParamsAndResults` and panic (modelled `none`),
instead of returning a `Method` with zero result slots as the claim
states. -/
theorem GetMethods_no_result_list_panics :
    Tmpl.GetMethods
      { packageName := "p",
        decls := [Tmpl.Decl.genDecl [Tmpl.Spec.typeSpec
          { name := "Closer",
            type := Tmpl.TypeShape.interfaceType
              [{ names := ["Close"],
                 type := Tmpl.MemberType.funcType (some []) none }] }]] }
      "Closer" = none := rfl

/-- C2: the type-expression stringifier satisfies
`getTypeString (*T) = "*" ++ getTypeString T` and
`getTypeString ([]T) = "[]" ++ getTypeString T` for every type expression
`T`, recursively; in particular a slice of pointer to slice of int renders
as `[]*[]int`. -/
theorem getTypeString_star_slice :
    ∀ t : Tmpl.Expr,
      Tmpl.getTypeString (Tmpl.Expr.starExpr t) = "*" ++ Tmpl.getTypeString t ∧
      Tmpl.getTypeString (Tmpl.Expr.arrayType t) = "[]" ++ Tmpl.getTypeString t ∧
      Tmpl.getTypeString
        (Tmpl.Expr.arrayType (Tmpl.Expr.starExpr
          (Tmpl.Expr.arrayType (Tmpl.Expr.ident "int")))) = "[]*[]int" :=
  fun _ => ⟨rfl, rfl, rfl⟩

/-- C3 counterexample: with a rendered buffer that the formatter rejects,
the run does NOT complete normally — `writeFile` returns the format error
to `Build`, which calls `os.Exit(-1)`.  (The unformatted text has been
written and two warnings logged by then, but "continues/completes
normally" is false.) -/
theorem buildRun_format_failure_exits :
    (Gonerator.buildRun (fun _ => none) true true "src" "out.go"
        "package x").2 = Gonerator.RunExit.exitedNeg1 ∧
    Gonerator.RunExit.exitedNeg1 ≠ Gonerator.RunExit.completed :=
  ⟨rfl, by decide⟩

/-- C3 amended: when the generated Go text fails formatting, two warning
lines are logged and the unformatted rendered text is still written to the
destination, but the run then terminates with `os.Exit(-1)` instead of
completing normally. -/
theorem format_failure_warns_writes_and_exits :
    ∀ (gofmt : String → Option String) (dir filename buf : String),
      Gonerator.isGo filename = true → gofmt buf = none →
      (Gonerator.buildRun gofmt true true dir filename buf).1.warnings = 2 ∧
      (Gonerator.buildRun gofmt true true dir filename buf).1.written =
        some (joinPath dir (strLower filename), buf) ∧
      (Gonerator.buildRun gofmt true true dir filename buf).2 =
        Gonerator.RunExit.exitedNeg1 := by
  intro gofmt dir filename buf hgo hfmt
  refine ⟨?_, ?_, ?_⟩ <;>
    simp [Gonerator.buildRun, Gonerator.writeFile, Gonerator.format, hgo, hfmt]

/-- C3 witness: the amended behaviour at a concrete input. -/
theorem format_failure_warns_writes_and_exits_witness :
    Gonerator.isGo "out.go" = true ∧
    (Gonerator.buildRun (fun _ => none) true true "src" "out.go"
        "package x").1.written = some ("src/out.go", "package x") :=
  ⟨rfl, by
    have h := format_failure_warns_writes_and_exits (fun _ => none) "src"
      "out.go" "package x" rfl rfl
    rw [h.2.1]
    rfl⟩

/-- C4 counterexample: the destination `x.gov` is not a Go source file
(its name does not end in `.go`), yet `buildHeader` prepends the generated
header, because `isGo` only tests `strings.Contains(filename, ".go")`. -/
theorem buildHeader_non_go_gets_header :
    Gonerator.buildHeader
      { TypeName := "T", TemplateFile := "t.tmpl", OutputFile := "x.gov",
        PackageName := "", Fields := [], Extras := [], Methods := [] } "" =
      Gonerator.headerText "T" "t.tmpl" "x.gov" ∧
    Gonerator.headerText "T" "t.tmpl" "x.gov" ≠ "" ∧
    specIsGoSourceFile "x.gov" = false :=
  ⟨rfl, by decide, rfl⟩

/-- C4 amended: the fixed generated-file header (tool identity, DO NOT
EDIT, @generated, then TypeName, Template, Destination — the text of
`headerText`) is prepended to the output if and only if the destination
file name contains `".go"` anywhere as a substring; that set strictly
contains the Go source files (e.g. `x.gov` also receives a header). -/
theorem buildHeader_iff_contains :
    ∀ (data : Tmpl.TemplateData) (buf : String),
      Gonerator.buildHeader data buf =
          buf ++ Gonerator.headerText data.TypeName data.TemplateFile
            data.OutputFile ↔
        ∃ pre post : List Char,
          data.OutputFile.data = pre ++ (".go".data ++ post) := by
  intro data buf
  cases hg : Gonerator.isGo data.OutputFile with
  | true =>
    constructor
    · intro _
      exact (containsSub_iff _ _).mp hg
    · intro _
      simp [Gonerator.buildHeader, hg]
  | false =>
    constructor
    · intro h
      exfalso
      simp only [Gonerator.buildHeader, hg, if_false, Bool.false_eq_true] at h
      have hdata := congrArg String.data h
      rw [strData_append] at hdata
      have hlen := congrArg List.length hdata
      rw [List.length_append] at hlen
      have hz : (Gonerator.headerText data.TypeName data.TemplateFile
          data.OutputFile).data.length = 0 := by omega
      have hnil := List.length_eq_zero.mp hz
      exact headerText_ne_empty _ _ _ (strEq_of_data _ _ (by rw [hnil]))
    · rintro ⟨pre, post, hp⟩
      have : Gonerator.isGo data.OutputFile = true :=
        (containsSub_iff _ _).mpr ⟨pre, post, hp⟩
      rw [hg] at this
      cases this

/-- C4 witness: the amended rule applied at a concrete destination whose
name contains `".go"` without ending in it. -/
theorem buildHeader_iff_contains_witness :
    Gonerator.buildHeader
      { TypeName := "T", TemplateFile := "t.tmpl", OutputFile := "x.gov",
        PackageName := "", Fields := [], Extras := [], Methods := [] }
      "abc" = "abc" ++ Gonerator.headerText "T" "t.tmpl" "x.gov" :=
  (buildHeader_iff_contains
    { TypeName := "T", TemplateFile := "t.tmpl", OutputFile := "x.gov",
      PackageName := "", Fields := [], Extras := [], Methods := [] }
    "abc").mpr ⟨['x'], ['v'], rfl⟩

/-- C5: the Extras sequence of the template data is exactly the
comma-split of the caller-supplied extras string, with no further
validation; for `extras = ""` the sequence is `[""]` — one empty-string
token, never the empty sequence. -/
theorem buildTemplateData_extras :
    (∀ (pkg : Gonerator.Package) (data : Tmpl.TemplateData) (extras : String)
        (d : Tmpl.TemplateData),
        Gonerator.buildTemplateData pkg data extras = some d →
        d.Extras = stringsSplitComma extras) ∧
    (∀ (pkg : Gonerator.Package) (data : Tmpl.TemplateData)
        (d : Tmpl.TemplateData),
        Gonerator.buildTemplateData pkg data "" = some d →
        d.Extras = [""]) :=
  ⟨buildTemplateData_extras_aux,
   fun pkg data d h => by
    have := buildTemplateData_extras_aux pkg data "" d h
    rw [this]
    rfl⟩

/-- C5 witness: a run over an empty syntax forest with `extras = ""`. -/
theorem buildTemplateData_extras_witness :
    Gonerator.buildTemplateData ⟨"p", ".", []⟩
        ⟨"T", "t", "o", "", [], [], []⟩ "" =
      some ⟨"T", "t", "o", "p", [], [""], []⟩ ∧
    (⟨"T", "t", "o", "p", [], [""], []⟩ : Tmpl.TemplateData).Extras = [""] :=
  ⟨rfl,
   buildTemplateData_extras.2 ⟨"p", ".", []⟩ ⟨"T", "t", "o", "", [], [], []⟩
     ⟨"T", "t", "o", "p", [], [""], []⟩ rfl⟩

/-- C6: the type-expression stringifier is total — every expression of the
embedded syntax produces some string — and every shape without a dedicated
`case` in the `switch` (plain identifiers and the `other` node kinds) falls
back to the generic `%s` rendering `fmtS`, which need not be valid Go
source text. -/
theorem getTypeString_total :
    (∀ e : Tmpl.Expr, ∃ s : String, Tmpl.getTypeString e = s) ∧
    (∀ e : Tmpl.Expr, Tmpl.handledShape e = false →
      Tmpl.getTypeString e = Tmpl.fmtS e) := by
  constructor
  · intro e
    exact ⟨_, rfl⟩
  · intro e h
    cases e with
    | ident n => rfl
    | other d => rfl
    | arrayType e => simp [Tmpl.handledShape] at h
    | mapType k v => simp [Tmpl.handledShape] at h
    | selectorExpr x s => simp [Tmpl.handledShape] at h
    | starExpr x => simp [Tmpl.handledShape] at h

/-- C6 witness: an unhandled shape (a channel type, carried by `other`)
gets the generic fallback rendering. -/
theorem getTypeString_total_witness :
    Tmpl.handledShape (Tmpl.Expr.other "chan int") = false ∧
    Tmpl.getTypeString (Tmpl.Expr.other "chan int") =
      Tmpl.fmtS (Tmpl.Expr.other "chan int") :=
  ⟨rfl, getTypeString_total.2 (Tmpl.Expr.other "chan int") rfl⟩

/-- C7 counterexample: with destination argument `Sub/File.go` under source
directory `src`, the writer persists to `src/sub/file.go` — the directory
component `Sub` inside the destination argument was case-folded too,
whereas lower-casing only the final path element would give
`src/Sub/file.go`. -/
theorem writeFile_lowercases_directory_component :
    (Gonerator.writeFile (fun s => some s) true true "src" "Sub/File.go"
        "x").written = some ("src/sub/file.go", "x") ∧
    joinPath "src" (specLowerLastComponent "Sub/File.go") =
      "src/Sub/file.go" ∧
    ("src/sub/file.go" : String) ≠ "src/Sub/file.go" :=
  ⟨rfl, rfl, by decide⟩

/-- C7 amended: the writer lower-cases the ENTIRE outputFile argument —
every path component inside it, not only the file name component — and
joins the result onto the unchanged source directory. -/
theorem writeFile_lowercases_whole_filename :
    (∀ (gofmt : String → Option String) (dir filename buf : String),
       ∃ s : String,
         (Gonerator.writeFile gofmt true true dir filename buf).written =
           some (joinPath dir (strLower filename), s)) ∧
    strLower "Sub/File.go" = "sub/file.go" ∧
    joinPath "src" (strLower "Sub/File.go") = "src/sub/file.go" :=
  ⟨writeFile_written_path, rfl, rfl⟩

/-- C8 counterexample: a relative template path is resolved by plain string
concatenation, not by the platform's path-joining rule: for `dir = "src"`
and `templateFile = "t.tmpl"` the code reads `srct.tmpl`, while
`filepath.Join` would give `src/t.tmpl`. -/
theorem templatePath_concat_not_join :
    Gonerator.templatePath "src" "t.tmpl" = "srct.tmpl" ∧
    joinPath "src" "t.tmpl" = "src/t.tmpl" ∧
    ("srct.tmpl" : String) ≠ "src/t.tmpl" :=
  ⟨rfl, rfl, by decide⟩

/-- C8 amended: an absolute template path (starting with `/`) is used as
given; any other template path is resolved by directly concatenating it
onto the source directory string with no separator inserted (so callers
must supply a trailing separator on the directory). -/
theorem templatePath_resolution :
    ∀ dir templateFile : String,
      (hasPre templateFile "/" = true →
        Gonerator.templatePath dir templateFile = templateFile) ∧
      (hasPre templateFile "/" = false →
        Gonerator.templatePath dir templateFile = dir ++ templateFile) := by
  intro dir tf
  constructor
  · intro h
    simp [Gonerator.templatePath, h]
  · intro h
    simp [Gonerator.templatePath, h]

/-- C8 witness: both branches of the amended rule at concrete paths. -/
theorem templatePath_resolution_witness :
    hasPre "/a.tmpl" "/" = true ∧
    Gonerator.templatePath "src" "/a.tmpl" = "/a.tmpl" ∧
    hasPre "t.tmpl" "/" = false ∧
    Gonerator.templatePath "src" "t.tmpl" = "srct.tmpl" :=
  ⟨rfl, (templatePath_resolution "src" "/a.tmpl").1 rfl, rfl,
   by rw [(templatePath_resolution "src" "t.tmpl").2 rfl]; rfl⟩

/-- C9 counterexample: an outputFile argument containing `..` escapes the
source directory: for `dir = "src"` and `outputFile = "../Evil.go"` the
file is written to `evil.go`, which does not lie beneath `src`. -/
theorem writeFile_escapes_source_directory :
    (Gonerator.writeFile (fun s => some s) true true "src" "../Evil.go"
        "x").written = some ("evil.go", "x") ∧
    hasPre "evil.go" "src" = false :=
  ⟨rfl, by decide⟩

/-- C9 amended: the written path always equals the source directory joined
(by the platform path-joining rule) with the lower-cased outputFile
argument; an absolute outputFile is thereby re-rooted under the source
directory rather than honored as-is, but an outputFile containing `..`
components can still resolve to a path outside the source directory. -/
theorem writeFile_rerooted_path :
    (∀ (gofmt : String → Option String) (dir filename buf : String),
       ∃ s : String,
         (Gonerator.writeFile gofmt true true dir filename buf).written =
           some (joinPath dir (strLower filename), s)) ∧
    joinPath "src" (strLower "/Abs/Out.go") = "src/abs/out.go" ∧
    joinPath "src" (strLower "../Evil.go") = "evil.go" :=
  ⟨writeFile_written_path, rfl, rfl⟩

/-- C10: a successful `parsePackage` run takes the package name from the
first successfully parsed `.go` file of the name list (`astFiles[0]`), and
`buildTemplateData` copies it into `TemplateData.PackageName`; nothing
constrains the package names of the remaining files (the witness below
exercises a run whose two files declare different packages). -/
theorem parsePackage_first_go_file :
    ∀ (parse : String → Option Tmpl.AstFile) (directory : String)
      (names : List String) (pkg : Gonerator.Package),
      Gonerator.parsePackage parse directory names = some pkg →
      ∃ f rest,
        Gonerator.parseAll parse (names.filter fun n => hasSuf n ".go") =
            some (f :: rest) ∧
        pkg.name = f.packageName ∧
        pkg.astFiles = f :: rest ∧
        ∀ (data : Tmpl.TemplateData) (extras : String)
          (d : Tmpl.TemplateData),
          Gonerator.buildTemplateData pkg data extras = some d →
          d.PackageName = f.packageName := by
  intro parse directory names pkg h
  simp only [Gonerator.parsePackage] at h
  cases hp : Gonerator.parseAll parse (names.filter fun n => hasSuf n ".go") with
  | none => rw [hp] at h; cases h
  | some l =>
    rw [hp] at h
    cases l with
    | nil => cases h
    | cons f rest =>
      injection h with h'
      refine ⟨f, rest, rfl, ?_, ?_, ?_⟩
      · rw [← h']
      · rw [← h']
      · intro data extras d hd
        rw [buildTemplateData_packageName pkg data extras d hd, ← h']

/-- C10 witness: two files declaring different packages (`pkga`, `pkgb`)
still parse successfully, and the package name comes from the first. -/
theorem parsePackage_first_go_file_witness :
    Gonerator.parsePackage parse0 "." ["a.go", "b.go", "c.txt"] =
      some ⟨"pkga", ".", [⟨"pkga", []⟩, ⟨"pkgb", []⟩]⟩ ∧
    (⟨"pkga", ".", [⟨"pkga", []⟩, ⟨"pkgb", []⟩]⟩ : Gonerator.Package).name =
      "pkga" := by
  refine ⟨rfl, ?_⟩
  obtain ⟨f, rest, h1, h2, h3, h4⟩ :=
    parsePackage_first_go_file parse0 "." ["a.go", "b.go", "c.txt"]
      ⟨"pkga", ".", [⟨"pkga", []⟩, ⟨"pkgb", []⟩]⟩ rfl
  have hc : Gonerator.parseAll parse0
      (["a.go", "b.go", "c.txt"].filter fun n => hasSuf n ".go") =
      some [(⟨"pkga", []⟩ : Tmpl.AstFile), ⟨"pkgb", []⟩] := rfl
  have hl := hc.symm.trans h1
  injection hl with hl'
  injection hl' with hf hrest
  rw [h2, ← hf]
